import Mathlib

/-!
Verification of the kdenlive → fcpxml timeline converter (`src/kdl2fcp.py`)
against its natural-language specification.

Time values are modelled as exact rationals (the spec's "canonical seconds");
the Python source computes them with floats, but the specification's
time-precision contract is stated over exact rational seconds, so the shallow
embedding works in `ℚ` throughout.  XML attribute strings holding times are
the `_formatTime` rendering of these rational values.
-/

namespace Kdl2Fcp

/-! ## TimeCodec: output formatting (`FcpXmlWriter._formatTime`, lines 438-441) -/

/-- Python's built-in `round`: round half to even (banker's rounding), on
exact rationals. -/
def pyRound (q : ℚ) : ℤ :=
  let f : ℤ := ⌊q⌋
  let r : ℚ := q - (f : ℚ)
  if r < 1/2 then f
  else if 1/2 < r then f + 1
  else if Even f then f else f + 1

/-- `FcpXmlWriter._formatTime`: `"%d/%ds" % (round(seconds * frame_rate_num), frame_rate_num)`. -/
def formatTime (num : ℤ) (seconds : ℚ) : String :=
  toString (pyRound (seconds * (num : ℚ))) ++ "/" ++ toString num ++ "s"

/-- Modelled from the spec's words (§4.1 output formatting), for comparison with
the source's `formatTime`: the target rational string `"<ticks>/<rate>s"` with
`ticks = round(seconds × frame_rate_numerator)` and `rate = frame_rate_numerator`. -/
def specTimeString (num : ℤ) (seconds : ℚ) : String :=
  let ticks : ℤ := pyRound (seconds * (num : ℚ))
  let rate : ℤ := num
  toString ticks ++ "/" ++ toString rate ++ "s"

/-! ## TimeCodec: input parse modes (`KdenliveReader.__init__`/`read`, lines 101-128) -/

/-- The two concrete time-parse behaviours (`_parseTimeFrames` / `_parseTimeStr`). -/
inductive TMode where
  | frames
  | timestamp
deriving DecidableEq, Repr

/-- `self.force_time_frames = force_time_frames if not force_time_timestamp else False`. -/
def initForceFrames (ff ft : Bool) : Bool :=
  if ft then false else ff

/-- `self.force_time_timestamp = force_time_timestamp if not force_time_frames else False`. -/
def initForceTimestamp (ff ft : Bool) : Bool :=
  if ff then false else ft

/-- `self.version = 0 if force_time_frames else 1` (note: the constructor
parameter, not the possibly-cleared attribute). -/
def initVersion (ff : Bool) : ℕ :=
  if ff then 0 else 1

/-- The `time_parse_type` property (lines 262-268). -/
def timeParseType (fF fT : Bool) : String :=
  if fT then "timestamp"
  else if fF then "frames"
  else "auto"

/-- `self._parseTime = self._parseTimeFrames if self.time_parse_type == "frames" else self._parseTimeStr`. -/
def initMode (fF fT : Bool) : TMode :=
  if timeParseType fF fT = "frames" then TMode.frames else TMode.timestamp

/-- The literal part of the legacy-version regex before the two digits:
`<property name="kdenlive:docproperties.version">0.` (both dots are escaped in
the source pattern, hence literal). -/
def markerLit1 : List Char :=
  "<property name=\"kdenlive:docproperties.version\">0.".data

/-- The literal part of the legacy-version regex after the two digits. -/
def markerLit2 : List Char :=
  "</property>".data

/-- Drop `p` from the front of `s` when `p` is a prefix of `s`. -/
def dropLit : List Char → List Char → Option (List Char)
  | [], s => some s
  | _ :: _, [] => none
  | p :: ps, c :: cs => if p = c then dropLit ps cs else none

/-- Does the legacy regex `<property name="kdenlive:docproperties\.version">0\.\d\d</property>`
match at the head of `cs`? -/
def markerAt (cs : List Char) : Bool :=
  match dropLit markerLit1 cs with
  | some (d1 :: d2 :: rest) => d1.isDigit && d2.isDigit && markerLit2.isPrefixOf rest
  | _ => false

/-- `re.search` of the legacy marker anywhere in the character list. -/
def hasLegacyMarkerL : List Char → Bool
  | [] => markerAt []
  | c :: cs => markerAt (c :: cs) || hasLegacyMarkerL cs

/-- `re.search(r"<property name=\"kdenlive:docproperties\.version\">0\.\d\d</property>", content)`
(line 125): the source file content declares a legacy format version. -/
def hasLegacyMarker (content : String) : Bool :=
  hasLegacyMarkerL content.data

/-- The `_parseTime` behaviour in force after `KdenliveReader.read` has inspected
the file `content` (lines 124-127): in `auto` mode a legacy marker (or the
force-frames flag, dead in `auto`) switches to frames; otherwise the mode set
at construction stands. -/
def readMode (ff ft : Bool) (content : String) : TMode :=
  let fF := initForceFrames ff ft
  let fT := initForceTimestamp ff ft
  if timeParseType fF fT = "auto" then
    (if hasLegacyMarker content || fF then TMode.frames else initMode fF fT)
  else initMode fF fT

/-- `self.version` after `KdenliveReader.read` on `content`. -/
def readVersion (ff ft : Bool) (content : String) : ℕ :=
  let fF := initForceFrames ff ft
  let fT := initForceTimestamp ff ft
  if timeParseType fF fT = "auto" then
    (if hasLegacyMarker content || fF then 0 else initVersion ff)
  else initVersion ff

/-- Embedded sub-projects are read by `KdenliveReader()` (line 190): a fresh
reader constructed with all-default arguments, so the time mode for an embedded
file is `readMode false false` of that file's own content. -/
def embeddedReadMode (content : String) : TMode :=
  readMode false false content

/-! ## Data model (lines 29-83)

The `resource` of a `Clip` is either a leaf file path or an embedded project.
The claims under verification never consult the contents of an embedded
project through a `Clip` (the one code path that would, `_addEmbeddedTimeline`,
raises before touching it — see `addEmbeddedTimelineE`), so the embedded
variant carries the sub-project's source path rather than a recursive
structure. -/

inductive Resource where
  | file (resource_path : String)
  | embedded (source_path : String)
deriving DecidableEq, Repr

/-- `Clip(clip_id, name, resource, duration)` (lines 34-39). -/
structure Clip where
  clip_id : String
  name : String
  resource : Resource
  duration : ℚ
deriving DecidableEq, Repr

/-- `Entry(clip, in_time, out_time)` (lines 42-46): a gap has `clip = none`. -/
structure Entry where
  clip : Option Clip
  in_time : ℚ
  out_time : ℚ
deriving DecidableEq, Repr

/-- `Track(is_audio)` with its entry list (lines 49-55). -/
structure Track where
  is_audio : Bool
  entries : List Entry
deriving DecidableEq, Repr

/-- The gap entry the reader stores for a `<blank>` of parsed length `length`
(lines 242-246): `Entry(None, 0, length - 1/frame_rate)`. -/
def blankEntry (fr : ℚ) (length : ℚ) : Entry :=
  ⟨none, 0, length - 1 / fr⟩

/-! ## Project id prefixes (`Project.__init__`, lines 58-73) -/

/-- Python `"%02d" % n`: decimal digits, zero-padded on the left to width 2. -/
def pad2 (n : ℕ) : String :=
  if n < 10 then "0" ++ Nat.repr n else Nat.repr n

/-- The `id_prefix` a `Project` constructed while the process-wide
`global_embed_counter` holds `counter` receives (lines 67-71); `emb` is the
`EMBEDDED_MLT_TO_COMPOUND_CLIP` option. -/
def idPrefixAt (emb : Bool) (counter : ℕ) : String :=
  if counter = 0 then (if emb then "ROOT_" else "")
  else "EMB_" ++ pad2 counter ++ "_"

/-- A raw producer id that does not itself begin with the `"EMB_"` stem the
counter mints for later projects (the only shape that can collide with a
minted prefix). -/
def goodRawId (s : String) : Prop :=
  ¬ ("EMB_".data <+: s.data)

instance goodRawIdDecidable (s : String) : Decidable (goodRawId s) := by
  unfold goodRawId
  infer_instance

/-- Decimal value of a digit string (most significant first); decodes the
output of `pad2`/`Nat.repr` in the prefix-uniqueness proof. -/
def digitsVal (cs : List Char) : ℕ :=
  cs.foldl (fun a c => 10 * a + (c.toNat - 48)) 0

/-! ## Python dictionaries

Association lists with Python-`dict` update semantics: inserting an existing
key overwrites in place, a new key is appended; lookup finds the unique
binding. -/

/-- Python `d[k] = v`. -/
def dinsert (k : String) (v : α) : List (String × α) → List (String × α)
  | [] => [(k, v)]
  | (k', v') :: m => if k' = k then (k, v) :: m else (k', v') :: dinsert k v m

/-- Python `d.get(k)` / `k in d`: first binding of `k`. -/
def dlookup (k : String) : List (String × α) → Option α
  | [] => none
  | (k', v) :: m => if k' = k then some v else dlookup k m

/-! ## ResourceCanonicalizer / `KdenliveReader._parseProducers` (lines 149-203) -/

/-- One `<producer>` element, with the attributes and properties the reader
consumes.  `out` is the producer's declared out-point already taken through
the active `_parseTime` mode into canonical seconds. -/
structure Producer where
  id : String
  resource : String
  originalurl : Option String
  clipname : Option String
  out : ℚ
  video_index : Option ℤ
deriving DecidableEq, Repr

/-- `re.match(r"[0-9.]+:", s)`: does `s` start with one or more digits/dots
followed by a colon? -/
def speedMatchL : List Char → Bool → Bool
  | [], _ => false
  | c :: cs, seen =>
    if c = ':' then seen
    else if c.isDigit || c = '.' then speedMatchL cs true
    else false

/-- `resource_name.find(":")`, then keep everything after it: given that the
speed-ramp pattern matched, drop through the first colon (lines 171-174). -/
def dropThroughColon : List Char → List Char
  | [] => []
  | c :: cs => if c = ':' then cs else dropThroughColon cs

/-- The speed-ramp prefix strip (lines 171-174). -/
def stripSpeed (s : String) : String :=
  if speedMatchL s.data false then ⟨dropThroughColon s.data⟩ else s

/-- `os.path.join(root, name)` for POSIX paths as used here: an absolute
`name` discards `root`; otherwise the two are joined with exactly one slash. -/
def pathJoin (root name : String) : String :=
  if name.startsWith "/" then name
  else if root = "" then name
  else if root.endsWith "/" then root ++ name
  else root ++ "/" ++ name

/-- `os.path.split(path)[1]` / `os.path.basename(path)`: the part after the
last slash. -/
def basenameL : List Char → List Char → List Char
  | [], acc => acc.reverse
  | c :: cs, acc => if c = '/' then basenameL cs [] else basenameL cs (c :: acc)

def basename (s : String) : String :=
  ⟨basenameL s.data []⟩

/-- Raw resource name of a producer: the `kdenlive:originalurl` property when
present, else the `resource` property (lines 162-167), speed prefix stripped. -/
def resourceNameOf (p : Producer) : String :=
  stripSpeed (p.originalurl.getD p.resource)

/-- The producer's resolved absolute resource path (line 176). -/
def resolvePath (root : String) (p : Producer) : String :=
  pathJoin root (resourceNameOf p)

/-- Display name of a freshly minted clip (lines 181-187): the
`kdenlive:clipname` property when present and non-empty, else the path's final
segment. -/
def clipNameOf (p : Producer) (resource_path : String) : String :=
  match p.clipname with
  | some n => if n = "" then basename resource_path else n
  | none => basename resource_path

/-- The clip `resource` (lines 189-194): with the compound-clip option on, a
`.kdenlive` path becomes an embedded project (read recursively in the source;
represented here by its path), else a leaf `ClipFile`. -/
def mkResource (emb : Bool) (resource_path : String) : Resource :=
  if emb && resource_path.endsWith ".kdenlive" then Resource.embedded resource_path
  else Resource.file resource_path

/-- The mutable state `_parseProducers` builds: `resource_path_to_canonical_clip`,
`clip_id_to_canonical_clip_id`, and the project's `clips` mapping. -/
structure PState where
  pathToCanonical : List (String × String)
  idToCanonical : List (String × String)
  clips : List (String × Clip)
deriving DecidableEq, Repr

def PState.empty : PState := ⟨[], [], []⟩

/-- The body of the producer loop (lines 156-201) for one producer; `pre` is
the project's `id_prefix`, `root` the `<mlt root=...>` attribute. -/
def stepProducer (emb : Bool) (pre root : String) (st : PState) (p : Producer) : PState :=
  if p.id = "black_track" then st
  else
    let cid := pre ++ p.id
    let resource_path := resolvePath root p
    match dlookup resource_path st.pathToCanonical with
    | some canonical =>
        { st with idToCanonical := dinsert cid canonical st.idToCanonical }
    | none =>
        let clip : Clip := ⟨cid, clipNameOf p resource_path, mkResource emb resource_path, p.out⟩
        { pathToCanonical := dinsert resource_path cid st.pathToCanonical
          idToCanonical := dinsert cid cid st.idToCanonical
          clips := dinsert cid clip st.clips }

/-- `KdenliveReader._parseProducers` over the document's producer list. -/
def parseProducers (emb : Bool) (pre root : String) (ps : List Producer) : PState :=
  ps.foldl (stepProducer emb pre root) PState.empty

/-- The producers the loop actually processes: everything but the reserved
`black_track` sentinel (lines 158-159). -/
def nonBlack (ps : List Producer) : List Producer :=
  ps.filter fun p => decide (p.id ≠ "black_track")

/-- Invariant of the `_parseProducers` loop after processing the producer list
`l`: the path map sends each resolved path to the prefixed id of the first
non-black producer with that path, the id map sends every processed producer's
prefixed id to its path's canonical clip id, the clips mapping has only
canonical keys, and it holds exactly one clip per distinct resolved path. -/
def producersInv (pre root : String) (l : List Producer) (st : PState) : Prop :=
  (∀ path : String, dlookup path st.pathToCanonical =
      ((nonBlack l).find? fun r => decide (resolvePath root r = path)).map
        (fun r => pre ++ r.id)) ∧
  (∀ p ∈ nonBlack l, dlookup (pre ++ p.id) st.idToCanonical =
      ((nonBlack l).find? fun r => decide (resolvePath root r = resolvePath root p)).map
        (fun r => pre ++ r.id)) ∧
  (∀ k : String, (dlookup k st.clips).isSome → ∃ q ∈ nonBlack l, k = pre ++ q.id) ∧
  st.clips.length = ((nonBlack l).map (resolvePath root)).toFinset.card

/-! ## TrackClassifier and `KdenliveReader._parseTracks` (lines 205-261) -/

/-- One child of a `<playlist>` element: a `<blank length=...>`, an
`<entry producer=... in=... out=...>`, or any other node (whitespace text,
comments), which the walk ignores.  Time attributes are carried already taken
through the active `_parseTime` mode into canonical seconds. -/
inductive PEntry where
  | blank (length : ℚ)
  | entry (producer : String) (tin tout : ℚ)
  | other
deriving DecidableEq, Repr

/-- A `<playlist>` element. -/
structure Playlist where
  id : String
  contents : List PEntry
deriving DecidableEq, Repr

/-- `selectFirst(playlist, "entry")`: the first `<entry>` child, skipping
blanks and text nodes. -/
def firstEntryProducer (pl : Playlist) : Option String :=
  pl.contents.findSome? fun c =>
    match c with
    | PEntry.entry p _ _ => some p
    | _ => none

/-- The fallback scan of lines 229-234: walk every producer; each one whose id
matches the first entry's producer id and carries a `video_index` property
overwrites `is_audio` with `video_index == -1`. -/
def videoIndexScan (producers : List Producer) (ep : String) (base : Bool) : Bool :=
  producers.foldl
    (fun acc q =>
      if q.id = ep then
        match q.video_index with
        | some vi => decide (vi = -1)
        | none => acc
      else acc)
    base

/-- The `is_audio` flag of one playlist's track (lines 225-236): primary
classification by tractor-collected `audio_playlist_ids` membership, then —
only when `legacy_format or version == 0` — the video-index fallback on the
first entry's producer. -/
def classifyTrack (legacy : Bool) (version : ℕ) (producers : List Producer)
    (audioIds : List String) (pl : Playlist) : Bool :=
  let base := audioIds.contains pl.id
  if legacy || version = 0 then
    match firstEntryProducer pl with
    | some ep => videoIndexScan producers ep base
    | none => base
  else base

/-- Python exceptions the modelled reader/writer can raise. -/
inductive PyErr where
  | keyError (key : String)
  | nameError (name : String)
  | typeError (msg : String)
deriving DecidableEq, Repr

/-- One playlist child (lines 240-258): a blank becomes a gap entry with
`out_time` = parsed length minus one frame duration; an `<entry>` resolves its
prefixed producer id through `clip_id_to_canonical_clip_id` (Python `dict[...]`
lookup → `KeyError` when absent) and then `Project.getClip`; other nodes yield
nothing. -/
def parseEntryE (pre : String) (idMap : List (String × String))
    (clips : List (String × Clip)) (fr : ℚ) : PEntry → Except PyErr (Option Entry)
  | PEntry.blank length => Except.ok (some (blankEntry fr length))
  | PEntry.entry producer tin tout =>
      let pid := pre ++ producer
      match dlookup pid idMap with
      | none => Except.error (PyErr.keyError pid)
      | some cid =>
          match dlookup cid clips with
          | none => Except.error (PyErr.keyError cid)
          | some clip => Except.ok (some ⟨some clip, tin, tout⟩)
  | PEntry.other => Except.ok none

/-- The entry walk of one playlist. -/
def parseEntriesE (pre : String) (idMap : List (String × String))
    (clips : List (String × Clip)) (fr : ℚ) : List PEntry → Except PyErr (List Entry)
  | [] => Except.ok []
  | c :: cs =>
      match parseEntryE pre idMap clips fr c with
      | Except.error e => Except.error e
      | Except.ok none => parseEntriesE pre idMap clips fr cs
      | Except.ok (some en) =>
          match parseEntriesE pre idMap clips fr cs with
          | Except.error e => Except.error e
          | Except.ok ens => Except.ok (en :: ens)

/-- One playlist → `Track` (lines 221-261 body): classification, the entry
walk, and the empty-track drop (`if track.entries`). -/
def parseTrackE (legacy : Bool) (version : ℕ) (producers : List Producer)
    (audioIds : List String) (pre : String) (idMap : List (String × String))
    (clips : List (String × Clip)) (fr : ℚ) (pl : Playlist) :
    Except PyErr (Option Track) :=
  match parseEntriesE pre idMap clips fr pl.contents with
  | Except.error e => Except.error e
  | Except.ok ens =>
      if ens.isEmpty then Except.ok none
      else Except.ok (some ⟨classifyTrack legacy version producers audioIds pl, ens⟩)

/-- `KdenliveReader._parseTracks` over the playlist list, skipping `main_bin`. -/
def parseTracksE (legacy : Bool) (version : ℕ) (producers : List Producer)
    (audioIds : List String) (pre : String) (idMap : List (String × String))
    (clips : List (String × Clip)) (fr : ℚ) : List Playlist → Except PyErr (List Track)
  | [] => Except.ok []
  | pl :: pls =>
      if pl.id = "main_bin" then
        parseTracksE legacy version producers audioIds pre idMap clips fr pls
      else
        match parseTrackE legacy version producers audioIds pre idMap clips fr pl with
        | Except.error e => Except.error e
        | Except.ok none =>
            parseTracksE legacy version producers audioIds pre idMap clips fr pls
        | Except.ok (some t) =>
            match parseTracksE legacy version producers audioIds pre idMap clips fr pls with
            | Except.error e => Except.error e
            | Except.ok ts => Except.ok (t :: ts)

/-- The tail of `KdenliveReader.read` (lines 129-135): after `_parseProducers`
has produced the canonicalization state, `_parseTracks` must succeed for the
`Project`'s track list to be returned; a raised lookup error propagates and no
track list (hence no `Project`) is produced. -/
def readTracks (legacy : Bool) (version : ℕ) (producers : List Producer)
    (audioIds : List String) (pre : String) (st : PState) (fr : ℚ)
    (playlists : List Playlist) : Except PyErr (List Track) :=
  parseTracksE legacy version producers audioIds pre st.idToCanonical st.clips fr playlists

/-! ## TargetTimelineWriter: spine nodes (`FcpXmlWriter._addTrack`, lines 391-423) -/

/-- `lane` attribute: present (equal to the track index) only for `index > 0`
(lines 420-421). -/
def laneOf (index : ℕ) : Option ℕ :=
  if 0 < index then some index else none

/-- One emitted clip-or-gap spine node.  `start`, `dur` and `off` are the
exact rational values handed to `_formatTime` for the `start`, `duration` and
`offset` attributes; `name`/`ref` are absent on gap nodes; `srcEnable` is set
only on `ref-clip` nodes. -/
structure Node where
  tag : String
  name : Option String
  ref : Option String
  srcEnable : Option String
  start : ℚ
  dur : ℚ
  off : ℚ
  lane : Option ℕ
deriving DecidableEq, Repr

/-- The writer's per-entry duration (lines 395-396):
`out_time - in_time + 1/frame_rate`. -/
def entryDuration (fr : ℚ) (e : Entry) : ℚ :=
  e.out_time - e.in_time + 1 / fr

/-- The entry loop of `_addTrack` with the running `offset` made explicit.
`addGaps` is the `ADD_GAP_NODES` option: on a gap entry it decides between
emitting a `gap` node and silently advancing the offset (lines 398-403).
A `ref-clip` node additionally receives the synthetic `timeMap` child
(`_addFakeTimemap`), which carries no offset information and is not modelled
beyond the node itself. -/
def addTrackGo (fr : ℚ) (addGaps isAudio : Bool) (index : ℕ) :
    ℚ → List Entry → List Node
  | _, [] => []
  | off, e :: es =>
      let dur := entryDuration fr e
      match e.clip with
      | none =>
          if addGaps then
            ⟨"gap", none, none, none, e.in_time, dur, off, laneOf index⟩ ::
              addTrackGo fr addGaps isAudio index (off + dur) es
          else addTrackGo fr addGaps isAudio index (off + dur) es
      | some c =>
          (match c.resource with
            | Resource.file _ =>
                ⟨if isAudio then "audio" else "video", some c.name, some c.clip_id,
                  none, e.in_time, dur, off, laneOf index⟩
            | Resource.embedded _ =>
                ⟨"ref-clip", some c.name, some c.clip_id,
                  some (if isAudio then "audio" else "video"),
                  e.in_time, dur, off, laneOf index⟩) ::
            addTrackGo fr addGaps isAudio index (off + dur) es

/-- `FcpXmlWriter._addTrack`: the running offset starts at `0` (line 392). -/
def addTrack (fr : ℚ) (addGaps : Bool) (t : Track) (index : ℕ) : List Node :=
  addTrackGo fr addGaps t.is_audio index 0 t.entries

/-- `FcpXmlWriter._getProjectLength` (lines 384-389): the latest `out_time`
over all entries of all tracks, starting from 0. -/
def getProjectLength (tracks : List Track) : ℚ :=
  tracks.foldl (fun acc t => t.entries.foldl (fun m e => max m e.out_time) acc) 0

/-! ## TargetTimelineWriter: resources (`_addResources`/`_addEmbeddedTimeline`,
lines 333-357) -/

/-- An element of the serialized XML tree, as far as the post filter inspects
it: a tag and its attribute list (direct children of `resources` and of the
spine carry all the attributes the filter reads; their own children are not
consulted by the claims under verification). -/
structure XElem where
  tag : String
  attrs : List (String × String)
deriving DecidableEq, Repr

/-- `child.attrib.get("name", "")`. -/
def getAttr (e : XElem) (k : String) : String :=
  (dlookup k e.attrs).getD ""

/-- `if child.attrib:` — Python truthiness of the attribute dict. -/
def hasAttrib (e : XElem) : Bool :=
  !e.attrs.isEmpty

/-- The `<asset>` resource emitted for a leaf clip (lines 336-342). -/
def assetOf (num : ℤ) (cid : String) (c : Clip) (path : String) : XElem :=
  ⟨"asset",
    [("name", c.name), ("id", cid), ("src", "file://" ++ path),
     ("hasVideo", "1"), ("duration", formatTime num c.duration)]⟩

/-- `FcpXmlWriter._addEmbeddedTimeline` (lines 346-357), modelled to its actual
runtime behaviour: its first statement `clip = project.clips[clip_id]`
(line 347) reads the global name `project`, which is never bound at module
level (`convert` binds it only as a local), so every call raises `NameError`;
even with that repaired, line 349 calls `FcpXmlWriter(embedded_project)` while
`FcpXmlWriter.__init__` (line 274) requires the second positional argument
`legacy_format`, a `TypeError`.  The media element, the wrapping clip and the
nested-resource deduplication that follow are unreachable. -/
def addEmbeddedTimelineE : Except PyErr (List XElem) :=
  Except.error (PyErr.nameError "project")

/-- `FcpXmlWriter._addResources` (lines 333-344): one `asset` per leaf clip,
`_addEmbeddedTimeline` for every embedded-project clip. -/
def addResourcesE (num : ℤ) : List (String × Clip) → Except PyErr (List XElem)
  | [] => Except.ok []
  | (cid, c) :: cs =>
      match c.resource with
      | Resource.file path =>
          match addResourcesE num cs with
          | Except.error e => Except.error e
          | Except.ok rest => Except.ok (assetOf num cid c path :: rest)
      | Resource.embedded _ =>
          match addEmbeddedTimelineE with
          | Except.error e => Except.error e
          | Except.ok media =>
              match addResourcesE num cs with
              | Except.error e => Except.error e
              | Except.ok rest => Except.ok (media ++ rest)

/-! ## SchemaPostFilter (`FcpXmlWriter.write_xml`, lines 297-323) and the
legacy switch in `convert` (lines 449-457) -/

/-- The written document, as far as the post filter touches it: the direct
children of `<resources>` and of the `<spine>`. -/
structure XDoc where
  resources : List XElem
  spine : List XElem
deriving DecidableEq, Repr

/-- First resources pass (lines 303-309): remove every attributed child named
`black`. -/
def filterBlackResources (rs : List XElem) : List XElem :=
  rs.filter fun e => !(hasAttrib e && getAttr e "name" = "black")

/-- Second pass (lines 310-317): walking the spine in order, every attributed
element is collected for removal up to and including the first one named
`black`; unattributed nodes stay.  When no `black`-named element exists the
break never fires and every attributed spine child is removed. -/
def removeLeadingBlack : List XElem → List XElem
  | [] => []
  | e :: es =>
      if hasAttrib e then
        (if getAttr e "name" = "black" then es else removeLeadingBlack es)
      else e :: removeLeadingBlack es

/-- `s.split(".")[-1]`. -/
def lastDotComponent (s : String) : String :=
  (s.splitOn ".").getLastD ""

/-- Third pass (lines 318-321): any attributed spine element whose name ends
in a raw-audio extension is re-tagged `audio`. -/
def retagRawAudio (es : List XElem) : List XElem :=
  es.map fun e =>
    if hasAttrib e && (lastDotComponent (getAttr e "name") = "wav"
        || lastDotComponent (getAttr e "name") = "flac") then
      { e with tag := "audio" }
    else e

/-- The whole SchemaPostFilter. -/
def postFilter (d : XDoc) : XDoc :=
  ⟨filterBlackResources d.resources, retagRawAudio (removeLeadingBlack d.spine)⟩

/-- `FcpXmlWriter.write_xml` (lines 297-323): the filter runs exactly when the
writer's `legacy_format` is false. -/
def writeXml (legacy : Bool) (d : XDoc) : XDoc :=
  if legacy then d else postFilter d

/-- The `is_legacy` computation in `convert` (lines 452-455): the
`--legacy-format` flag, forced to `True` whenever the reader's `version` is 1. -/
def convertIsLegacy (legacyFlag : Bool) (version : ℕ) : Bool :=
  if version = 1 then true else legacyFlag

/-! # Theorems -/

/-- C3: for every canonical seconds value `t` and frame-rate numerator `num`,
`_formatTime` returns `"<ticks>/<num>s"` with `ticks = round(t × num)`
(Python's `round`) and the rate component exactly `num`; the sample conjunct
shows no GCD reduction happens (`30000/30000s`, not `1/1s`). -/
theorem formatTime_is_rounded_ticks_over_num (num : ℤ) (t : ℚ) :
    formatTime num t = specTimeString num t ∧
    (∃ ticks : ℤ, ticks = pyRound (t * (num : ℚ)) ∧
      formatTime num t = toString ticks ++ "/" ++ toString num ++ "s") ∧
    formatTime 30000 1 = "30000/30000s" := by
  refine ⟨rfl, ⟨pyRound (t * (num : ℚ)), rfl, rfl⟩, ?_⟩
  have hp : pyRound ((1 : ℚ) * ((30000 : ℤ) : ℚ)) = 30000 := by
    unfold pyRound
    norm_num
  show toString (pyRound ((1 : ℚ) * ((30000 : ℤ) : ℚ))) ++ "/" ++ toString (30000 : ℤ) ++ "s" =
    "30000/30000s"
  rw [hp]
  rfl

/-- C10: the reader's one-frame reduction on a blank's length and the writer's
one-frame addition to the entry duration cancel exactly: the writer's duration
for the stored gap entry — and hence the offset advance the gap contributes,
whether or not a gap node is emitted — equals the blank length as parsed. -/
theorem gap_one_frame_adjustments_cancel (fr length : ℚ) :
    entryDuration fr (blankEntry fr length) = length ∧
    ∀ (addGaps isAudio : Bool) (index : ℕ) (off : ℚ) (es : List Entry),
      addTrackGo fr addGaps isAudio index off (blankEntry fr length :: es) =
        (if addGaps then [⟨"gap", none, none, none, 0, length, off, laneOf index⟩] else [])
          ++ addTrackGo fr addGaps isAudio index (off + length) es := by
  have hd : entryDuration fr (blankEntry fr length) = length := by
    simp only [entryDuration, blankEntry]
    ring
  refine ⟨hd, ?_⟩
  intro addGaps isAudio index off es
  have hstep : addTrackGo fr addGaps isAudio index off (blankEntry fr length :: es) =
      (if addGaps then
        [⟨"gap", none, none, none, 0, entryDuration fr (blankEntry fr length), off, laneOf index⟩]
       else []) ++
        addTrackGo fr addGaps isAudio index (off + entryDuration fr (blankEntry fr length)) es := by
    cases addGaps <;> rfl
  rw [hstep, hd]

/-- C4 counterexample: the time-parse mode is not inherited by embedded
sub-files.  A top-level reader forced to frame mode parses in frames, but the
embedded reader minted at line 190 is constructed with default arguments and
re-detects from the sub-file's own content: on a sub-file without the legacy
marker it parses timestamps. -/
theorem embedded_mode_not_inherited_cex :
    readMode true false "<mlt></mlt>" = TMode.frames ∧
    embeddedReadMode "<mlt></mlt>" = TMode.timestamp ∧
    TMode.frames ≠ TMode.timestamp := by
  decide

/-- C4 amended: the mode is determined per file read.  The top-level reader's
mode comes from its forced flags or (in auto mode) the top-level file's legacy
marker; every embedded sub-file is read by a fresh default reader in auto
mode, whose resulting mode depends only on that sub-file's own marker. -/
theorem time_mode_detected_per_file (ff ft : Bool) (content sub : String) :
    embeddedReadMode sub =
      (if hasLegacyMarker sub then TMode.frames else TMode.timestamp) ∧
    readMode ff ft content =
      (if initForceTimestamp ff ft then TMode.timestamp
       else if initForceFrames ff ft then TMode.frames
       else if hasLegacyMarker content then TMode.frames else TMode.timestamp) := by
  constructor
  · by_cases h : hasLegacyMarker sub <;>
      simp [embeddedReadMode, readMode, initForceFrames, initForceTimestamp,
        timeParseType, initMode, h]
  · cases ff <;> cases ft <;> by_cases h : hasLegacyMarker content <;>
      simp [readMode, initForceFrames, initForceTimestamp, timeParseType, initMode, h]

/-- C6 counterexample: with the legacy-output-format option false but reader
version 1 (a modern source file, no forced frame mode), `convert` forces
`is_legacy = True` (line 455), so the SchemaPostFilter does not run and the
`black` elements stay — although running it would have changed the document. -/
theorem post_filter_skipped_on_version1_cex :
    writeXml (convertIsLegacy false 1)
        ⟨[⟨"asset", [("name", "black")]⟩], [⟨"video", [("name", "black")]⟩]⟩ =
      ⟨[⟨"asset", [("name", "black")]⟩], [⟨"video", [("name", "black")]⟩]⟩ ∧
    postFilter ⟨[⟨"asset", [("name", "black")]⟩], [⟨"video", [("name", "black")]⟩]⟩ ≠
      ⟨[⟨"asset", [("name", "black")]⟩], [⟨"video", [("name", "black")]⟩]⟩ := by
  decide

/-- C6 amended: the SchemaPostFilter runs when and only when the
legacy-output-format option is false AND the reader's version is not 1 (i.e. a
legacy file or forced frame mode); in every other case — in particular
whenever the option is true — the document, black elements included, is
written unchanged. -/
theorem post_filter_iff_nonlegacy_and_version0 (flag : Bool) (version : ℕ) (d : XDoc) :
    writeXml (convertIsLegacy flag version) d =
      (if flag = false ∧ version ≠ 1 then postFilter d else d) ∧
    writeXml (convertIsLegacy true version) d = d := by
  constructor
  · by_cases hv : version = 1 <;> cases flag <;> simp [convertIsLegacy, writeXml, hv]
  · by_cases hv : version = 1 <;> simp [convertIsLegacy, writeXml, hv]

/-- C5 (code bug): writing the resources of a project that contains an
embedded-project clip raises instead of emitting the media resource.
`_addEmbeddedTimeline`'s first statement (line 347) reads the never-bound
global name `project` (a `NameError`; the enclosing local in `convert` is not
visible), and its line 349 calls `FcpXmlWriter(embedded_project)` without the
required `legacy_format` argument (a `TypeError`), so the wrapped timeline and
its deduplicated nested resources are never produced. -/
theorem embedded_timeline_write_raises :
    addResourcesE 25
      [("ROOT_2", ⟨"ROOT_2", "clip", Resource.file "/media/a.mov", 5⟩),
       ("ROOT_3", ⟨"ROOT_3", "sub", Resource.embedded "/media/sub.kdenlive", 10⟩)] =
      Except.error (PyErr.nameError "project") := by
  rfl

lemma addTrackGo_true_length (fr : ℚ) (a : Bool) (i : ℕ) :
    ∀ (es : List Entry) (off : ℚ), (addTrackGo fr true a i off es).length = es.length := by
  intro es
  induction es with
  | nil => intro off; rfl
  | cons e es ih =>
    intro off
    rcases e with ⟨clip, tin, tout⟩
    rcases clip with _ | c
    · simpa [addTrackGo] using ih _
    · rcases c with ⟨cid, cname, res, cdur⟩
      rcases res with p | p <;> simpa [addTrackGo] using ih _

lemma addTrackGo_true_cons (fr : ℚ) (a : Bool) (i : ℕ) (off : ℚ) (e : Entry)
    (es : List Entry) :
    ∃ nd : Node, nd.off = off ∧
      addTrackGo fr true a i off (e :: es) =
        nd :: addTrackGo fr true a i (off + entryDuration fr e) es := by
  rcases e with ⟨clip, tin, tout⟩
  rcases clip with _ | c
  · exact ⟨_, rfl, rfl⟩
  · rcases c with ⟨cid, cname, res, cdur⟩
    rcases res with p | p <;> exact ⟨_, rfl, rfl⟩

lemma addTrackGo_getElem_off (fr : ℚ) (a : Bool) (i : ℕ) :
    ∀ (es : List Entry) (off : ℚ) (n : ℕ), n < es.length →
      ((addTrackGo fr true a i off es)[n]?).map Node.off =
        some (off + ((es.take n).map (entryDuration fr)).sum) := by
  intro es
  induction es with
  | nil =>
    intro off n h
    exact absurd h (Nat.not_lt_zero n)
  | cons e es ih =>
    intro off n h
    obtain ⟨nd, hnd, hcons⟩ := addTrackGo_true_cons fr a i off e es
    rw [hcons]
    cases n with
    | zero => simp [hnd]
    | succ n =>
      have h' : n < es.length := Nat.lt_of_succ_lt_succ h
      simp only [List.getElem?_cons_succ, List.take_succ_cons, List.map_cons, List.sum_cons]
      rw [ih (off + entryDuration fr e) n h']
      rw [add_assoc]

lemma addTrackGo_gap_filter (fr : ℚ) (a : Bool) (i : ℕ) :
    ∀ (es : List Entry) (off : ℚ),
      (addTrackGo fr true a i off es).filter (fun nd => decide (nd.tag ≠ "gap")) =
        addTrackGo fr false a i off es := by
  intro es
  induction es with
  | nil => intro off; rfl
  | cons e es ih =>
    intro off
    rcases e with ⟨clip, tin, tout⟩
    rcases clip with _ | c
    · simpa [addTrackGo, List.filter] using ih _
    · rcases c with ⟨cid, cname, res, cdur⟩
      rcases res with p | p <;> cases a <;>
        simpa [addTrackGo, List.filter] using ih _

/-- C1: in the emitted spine of a track, the n-th clip-or-gap node's offset
equals the exact sum of the writer durations of all preceding entries of that
track (gap entries included); and with gap-node emission disabled the emitted
elements are exactly the non-gap elements of the gap-enabled output, offsets
unchanged. -/
theorem spine_offsets_accumulate_and_gap_policy (fr : ℚ) (t : Track) (index : ℕ) :
    (addTrack fr true t index).length = t.entries.length ∧
    (∀ n : ℕ, n < t.entries.length →
      ((addTrack fr true t index)[n]?).map Node.off =
        some (((t.entries.take n).map (entryDuration fr)).sum)) ∧
    (addTrack fr true t index).filter (fun nd => decide (nd.tag ≠ "gap")) =
      addTrack fr false t index := by
  unfold addTrack
  refine ⟨addTrackGo_true_length fr t.is_audio index t.entries 0, ?_,
    addTrackGo_gap_filter fr t.is_audio index t.entries 0⟩
  intro n h
  simpa using addTrackGo_getElem_off fr t.is_audio index t.entries 0 n h

/-- C1 witness: a concrete track (one gap of writer-duration `2 + 1/25`, then
one clip entry), evaluated at its second emitted node. -/
theorem spine_offsets_accumulate_witness :
    1 < ([⟨none, 0, 2⟩, ⟨some ⟨"c1", "a", Resource.file "/a.mov", 5⟩, 1, 3⟩] :
        List Entry).length ∧
    ((addTrack 25 true ⟨false, [⟨none, 0, 2⟩,
        ⟨some ⟨"c1", "a", Resource.file "/a.mov", 5⟩, 1, 3⟩]⟩ 0)[1]?).map Node.off =
      some (((([⟨none, 0, 2⟩, ⟨some ⟨"c1", "a", Resource.file "/a.mov", 5⟩, 1, 3⟩] :
          List Entry).take 1).map (entryDuration 25)).sum) :=
  ⟨by decide,
    (spine_offsets_accumulate_and_gap_policy 25 ⟨false, [⟨none, 0, 2⟩,
      ⟨some ⟨"c1", "a", Resource.file "/a.mov", 5⟩, 1, 3⟩]⟩ 0).2.1 1 (by decide)⟩

lemma videoIndexScan_const (ep : String) (v : ℤ) :
    ∀ l : List Producer, (∀ r ∈ l, r.id = ep → r.video_index = some v) →
      videoIndexScan l ep (decide (v = -1)) = decide (v = -1) := by
  intro l
  induction l with
  | nil => intro _; rfl
  | cons r l ih =>
    intro hall
    have htail : ∀ x ∈ l, x.id = ep → x.video_index = some v := by
      intro x hx
      exact hall x (List.mem_cons_of_mem r hx)
    unfold videoIndexScan at ih ⊢
    rw [List.foldl_cons]
    by_cases hr : r.id = ep
    · rw [if_pos hr, hall r (List.mem_cons_self r l) hr]
      exact ih htail
    · rw [if_neg hr]
      exact ih htail

lemma videoIndexScan_finds (ep : String) (v : ℤ) :
    ∀ (l : List Producer) (base : Bool) (q : Producer), q ∈ l → q.id = ep →
      q.video_index = some v →
      (∀ r ∈ l, r.id = ep → r.video_index = some v) →
      videoIndexScan l ep base = decide (v = -1) := by
  intro l
  induction l with
  | nil =>
    intro base q hq
    exact absurd hq (List.not_mem_nil q)
  | cons r l ih =>
    intro base q hq hid hvi hall
    have htail : ∀ x ∈ l, x.id = ep → x.video_index = some v := by
      intro x hx
      exact hall x (List.mem_cons_of_mem r hx)
    unfold videoIndexScan at ih ⊢
    rw [List.foldl_cons]
    by_cases hr : r.id = ep
    · rw [if_pos hr, hall r (List.mem_cons_self r l) hr]
      exact videoIndexScan_const ep v l htail
    · rw [if_neg hr]
      rcases List.mem_cons.mp hq with rfl | hql
      · exact absurd hid hr
      · exact ih base q hql hid hvi htail

/-- C7: the video-index fallback can override the `is_audio` flag only in
legacy/forced-frames mode (`legacy_format or version == 0`); outside that mode
the tractor-based primary classification alone determines the flag.  When the
fallback does fire and the first entry's referenced producer declares a
video-index, the sentinel value `-1` (no video stream) makes the track audio
and any other value makes it non-audio. -/
theorem fallback_audio_classification :
    (∀ (legacy : Bool) (version : ℕ) (producers : List Producer)
       (audioIds : List String) (pl : Playlist),
      legacy = false → version ≠ 0 →
      classifyTrack legacy version producers audioIds pl = audioIds.contains pl.id) ∧
    (∀ (legacy : Bool) (version : ℕ) (producers : List Producer)
       (audioIds : List String) (pl : Playlist) (ep : String) (q : Producer) (v : ℤ),
      (legacy = true ∨ version = 0) →
      firstEntryProducer pl = some ep →
      q ∈ producers → q.id = ep → q.video_index = some v →
      (∀ r ∈ producers, r.id = ep → r.video_index = some v) →
      classifyTrack legacy version producers audioIds pl = decide (v = -1)) := by
  constructor
  · intro legacy version producers audioIds pl hl hv
    subst hl
    simp [classifyTrack, hv]
  · intro legacy version producers audioIds pl ep q v hlv hfe hq hid hvi hall
    have hcond : (legacy || decide (version = 0)) = true := by
      rcases hlv with rfl | rfl <;> simp
    unfold classifyTrack
    rw [if_pos hcond, hfe]
    exact videoIndexScan_finds ep v producers _ q hq hid hvi hall

/-- C7 witness: in non-legacy version-1 mode the primary signal alone decides;
in legacy mode the fallback reads the first entry's producer's `video_index`
of `-1` and marks the track audio. -/
theorem fallback_audio_classification_witness :
    classifyTrack false 1 [] ["playlist0"] ⟨"playlist0", []⟩ =
      (["playlist0"].contains "playlist0") ∧
    classifyTrack true 1 [⟨"p1", "/a.wav", none, none, 5, some (-1)⟩] []
        ⟨"playlist1", [PEntry.entry "p1" 0 1]⟩ = decide ((-1 : ℤ) = -1) :=
  ⟨fallback_audio_classification.1 false 1 [] ["playlist0"] ⟨"playlist0", []⟩ rfl
      (by decide),
   fallback_audio_classification.2 true 1 [⟨"p1", "/a.wav", none, none, 5, some (-1)⟩]
      [] ⟨"playlist1", [PEntry.entry "p1" 0 1]⟩ "p1"
      ⟨"p1", "/a.wav", none, none, 5, some (-1)⟩ (-1) (Or.inl rfl) rfl
      (by decide) rfl rfl (by decide)⟩

lemma parseEntryE_error_shape (pre : String) (idMap : List (String × String))
    (clips : List (String × Clip)) (fr : ℚ) (c : PEntry) (e : PyErr)
    (h : parseEntryE pre idMap clips fr c = Except.error e) : ∃ k, e = PyErr.keyError k := by
  cases c with
  | blank length =>
    simp only [parseEntryE] at h
    exact Except.noConfusion h
  | other =>
    simp only [parseEntryE] at h
    exact Except.noConfusion h
  | entry p tin tout =>
    simp only [parseEntryE] at h
    split at h
    · injection h with h'
      exact ⟨pre ++ p, h'.symm⟩
    · split at h
      · injection h with h'
        exact ⟨_, h'.symm⟩
      · exact Except.noConfusion h

lemma parseEntriesE_error_shape (pre : String) (idMap : List (String × String))
    (clips : List (String × Clip)) (fr : ℚ) :
    ∀ (cs : List PEntry) (e : PyErr),
      parseEntriesE pre idMap clips fr cs = Except.error e → ∃ k, e = PyErr.keyError k := by
  intro cs
  induction cs with
  | nil =>
    intro e h
    exact absurd h (by simp [parseEntriesE])
  | cons c cs ih =>
    intro e h
    simp only [parseEntriesE] at h
    rcases hc : parseEntryE pre idMap clips fr c with e' | oe
    · rw [hc] at h
      injection h with h'
      exact parseEntryE_error_shape pre idMap clips fr c e (h' ▸ hc)
    · rw [hc] at h
      rcases oe with _ | en
      · exact ih e h
      · rcases hr : parseEntriesE pre idMap clips fr cs with e' | ens
        · rw [hr] at h
          injection h with h'
          exact ih e (h' ▸ hr)
        · rw [hr] at h
          exact absurd h (by simp)

lemma parseEntriesE_bad_entry (pre : String) (idMap : List (String × String))
    (clips : List (String × Clip)) (fr : ℚ) :
    ∀ (cs : List PEntry) (p : String) (tin tout : ℚ),
      PEntry.entry p tin tout ∈ cs → dlookup (pre ++ p) idMap = none →
      ∃ k, parseEntriesE pre idMap clips fr cs = Except.error (PyErr.keyError k) := by
  intro cs
  induction cs with
  | nil =>
    intro p tin tout hmem
    exact absurd hmem (List.not_mem_nil _)
  | cons c cs ih =>
    intro p tin tout hmem hlook
    rcases List.mem_cons.mp hmem with rfl | hmem'
    · refine ⟨pre ++ p, ?_⟩
      simp only [parseEntriesE, parseEntryE]
      rw [hlook]
    · rcases hc : parseEntryE pre idMap clips fr c with e' | oe
      · obtain ⟨k, rfl⟩ := parseEntryE_error_shape pre idMap clips fr c e' hc
        refine ⟨k, ?_⟩
        simp only [parseEntriesE]
        rw [hc]
      · obtain ⟨k, hk⟩ := ih p tin tout hmem' hlook
        rcases oe with _ | en
        · refine ⟨k, ?_⟩
          simp only [parseEntriesE]
          rw [hc]
          exact hk
        · refine ⟨k, ?_⟩
          simp only [parseEntriesE]
          rw [hc, hk]

lemma parseTrackE_error_shape (legacy : Bool) (version : ℕ) (producers : List Producer)
    (audioIds : List String) (pre : String) (idMap : List (String × String))
    (clips : List (String × Clip)) (fr : ℚ) (pl : Playlist) (e : PyErr)
    (h : parseTrackE legacy version producers audioIds pre idMap clips fr pl =
      Except.error e) : ∃ k, e = PyErr.keyError k := by
  unfold parseTrackE at h
  rcases hc : parseEntriesE pre idMap clips fr pl.contents with e' | ens
  · rw [hc] at h
    injection h with h'
    exact parseEntriesE_error_shape pre idMap clips fr pl.contents e (h' ▸ hc)
  · rw [hc] at h
    by_cases he : ens.isEmpty <;> simp [he] at h

lemma parseTracksE_bad_playlist (legacy : Bool) (version : ℕ) (producers : List Producer)
    (audioIds : List String) (pre : String) (idMap : List (String × String))
    (clips : List (String × Clip)) (fr : ℚ) :
    ∀ (pls : List Playlist) (pl : Playlist), pl ∈ pls → pl.id ≠ "main_bin" →
      (∃ k, parseTrackE legacy version producers audioIds pre idMap clips fr pl =
        Except.error (PyErr.keyError k)) →
      ∃ k, parseTracksE legacy version producers audioIds pre idMap clips fr pls =
        Except.error (PyErr.keyError k) := by
  intro pls
  induction pls with
  | nil =>
    intro pl hmem
    exact absurd hmem (List.not_mem_nil _)
  | cons hd tl ih =>
    intro pl hmem hid hbad
    rcases List.mem_cons.mp hmem with rfl | hmem'
    · obtain ⟨k, hk⟩ := hbad
      refine ⟨k, ?_⟩
      simp only [parseTracksE]
      rw [if_neg hid, hk]
    · by_cases hhd : hd.id = "main_bin"
      · obtain ⟨k, hk⟩ := ih pl hmem' hid hbad
        refine ⟨k, ?_⟩
        simp only [parseTracksE]
        rw [if_pos hhd]
        exact hk
      · rcases hc : parseTrackE legacy version producers audioIds pre idMap clips fr hd
            with e' | ot
        · obtain ⟨k, rfl⟩ :=
            parseTrackE_error_shape legacy version producers audioIds pre idMap clips fr
              hd e' hc
          refine ⟨k, ?_⟩
          simp only [parseTracksE]
          rw [if_neg hhd, hc]
        · obtain ⟨k, hk⟩ := ih pl hmem' hid hbad
          rcases ot with _ | t
          · refine ⟨k, ?_⟩
            simp only [parseTracksE]
            rw [if_neg hhd, hc]
            exact hk
          · refine ⟨k, ?_⟩
            simp only [parseTracksE]
            rw [if_neg hhd, hc, hk]

/-- C9: a playlist entry whose prefixed producer id was never registered as a
canonical clip identity makes the track-parsing phase of `read` fail with a
lookup (`KeyError`) failure, so no track list — and hence no `Project` — is
returned for that file. -/
theorem unresolved_reference_aborts_read (legacy : Bool) (version : ℕ)
    (producers : List Producer) (audioIds : List String) (pre : String) (st : PState)
    (fr : ℚ) (playlists : List Playlist) (pl : Playlist) (p : String) (tin tout : ℚ)
    (hmem : pl ∈ playlists) (hid : pl.id ≠ "main_bin")
    (hent : PEntry.entry p tin tout ∈ pl.contents)
    (hlook : dlookup (pre ++ p) st.idToCanonical = none) :
    ∃ k, readTracks legacy version producers audioIds pre st fr playlists =
      Except.error (PyErr.keyError k) := by
  apply parseTracksE_bad_playlist legacy version producers audioIds pre st.idToCanonical
    st.clips fr playlists pl hmem hid
  obtain ⟨k, hk⟩ :=
    parseEntriesE_bad_entry pre st.idToCanonical st.clips fr pl.contents p tin tout
      hent hlook
  refine ⟨k, ?_⟩
  unfold parseTrackE
  rw [hk]

/-- C9 witness: a single playlist referencing the never-registered producer id
`p9` against an empty canonicalization state. -/
theorem unresolved_reference_aborts_read_witness :
    ∃ k, readTracks false 1 [] [] "" PState.empty 25
        [⟨"playlist0", [PEntry.entry "p9" 0 1]⟩] =
      Except.error (PyErr.keyError k) :=
  unresolved_reference_aborts_read false 1 [] [] "" PState.empty 25
    [⟨"playlist0", [PEntry.entry "p9" 0 1]⟩] ⟨"playlist0", [PEntry.entry "p9" 0 1]⟩
    "p9" 0 1 (by decide) (by decide) (by decide) rfl

lemma str_ext {a b : String} (h : a.data = b.data) : a = b := by
  cases a
  cases b
  exact congrArg String.mk h

lemma str_append_cancel {a b c : String} (h : a ++ b = a ++ c) : b = c := by
  have hd := congrArg String.data h
  simp only [String.data_append] at hd
  exact str_ext (List.append_cancel_left hd)

lemma dlookup_dinsert {α : Type} (k j : String) (v : α) :
    ∀ m : List (String × α),
      dlookup k (dinsert j v m) = if j = k then some v else dlookup k m := by
  intro m
  induction m with
  | nil => simp [dinsert, dlookup]
  | cons ab m ih =>
    rcases ab with ⟨a, b⟩
    by_cases h1 : a = j
    · simp only [dinsert, if_pos h1, dlookup]
      by_cases h2 : j = k
      · simp [h2]
      · have h3 : ¬ a = k := by
          rw [h1]
          exact h2
        rw [if_neg h2, if_neg h2, if_neg h3]
    · simp only [dinsert, if_neg h1, dlookup]
      rw [ih]
      by_cases h2 : a = k
      · have h3 : ¬ j = k := fun hk => h1 (h2.trans hk.symm)
        rw [if_pos h2, if_pos h2, if_neg h3]
      · rw [if_neg h2, if_neg h2]

lemma dinsert_length_of_none {α : Type} (j : String) (v : α) :
    ∀ m : List (String × α), dlookup j m = none → (dinsert j v m).length = m.length + 1 := by
  intro m
  induction m with
  | nil => intro _; rfl
  | cons ab m ih =>
    rcases ab with ⟨a, b⟩
    intro h
    simp only [dlookup] at h
    by_cases h1 : a = j
    · rw [if_pos h1] at h
      exact absurd h (by simp)
    · rw [if_neg h1] at h
      simp only [dinsert, if_neg h1, List.length_cons, ih h]

lemma nonBlack_append (l1 l2 : List Producer) :
    nonBlack (l1 ++ l2) = nonBlack l1 ++ nonBlack l2 := by
  simp [nonBlack]

lemma nonBlack_single_black {p : Producer} (h : p.id = "black_track") :
    nonBlack [p] = [] := by
  simp [nonBlack, h]

lemma nonBlack_single {p : Producer} (h : ¬ p.id = "black_track") :
    nonBlack [p] = [p] := by
  simp [nonBlack, h]

lemma find?_single (root : String) (p : Producer) (path' : String) :
    (([p] : List Producer).find? fun r => decide (resolvePath root r = path')) =
      if resolvePath root p = path' then some p else none := by
  by_cases h : resolvePath root p = path' <;> simp [List.find?, h]

lemma producersInv_step (emb : Bool) (pre root : String) (l : List Producer) (st : PState)
    (p : Producer) (hids : ((nonBlack (l ++ [p])).map Producer.id).Nodup)
    (hinv : producersInv pre root l st) :
    producersInv pre root (l ++ [p]) (stepProducer emb pre root st p) := by
  obtain ⟨h1, h2, h3, h4⟩ := hinv
  by_cases hb : p.id = "black_track"
  · have hnb : nonBlack (l ++ [p]) = nonBlack l := by
      rw [nonBlack_append, nonBlack_single_black hb, List.append_nil]
    have hst : stepProducer emb pre root st p = st := by
      unfold stepProducer
      rw [if_pos hb]
    rw [producersInv, hnb, hst]
    exact ⟨h1, h2, h3, h4⟩
  · have hnb : nonBlack (l ++ [p]) = nonBlack l ++ [p] := by
      rw [nonBlack_append, nonBlack_single hb]
    have hid_not : p.id ∉ (nonBlack l).map Producer.id := by
      intro hmem
      rw [hnb, List.map_append] at hids
      rcases List.nodup_append.mp hids with ⟨_, _, hdisj⟩
      exact hdisj hmem (by simp)
    have hqid : ∀ q ∈ nonBlack l, ¬ pre ++ q.id = pre ++ p.id := by
      intro q hq heq
      exact hid_not (str_append_cancel heq ▸ List.mem_map_of_mem Producer.id hq)
    have hfind := h1 (resolvePath root p)
    rcases hpc : dlookup (resolvePath root p) st.pathToCanonical with _ | canonical
    · -- mint branch: the path is new
      rw [hpc] at hfind
      have hfind0 : ((nonBlack l).find?
          fun r => decide (resolvePath root r = resolvePath root p)) = none :=
        Option.map_eq_none'.mp hfind.symm
      have hnotpath : resolvePath root p ∉ (nonBlack l).map (resolvePath root) := by
        intro hmem
        rcases List.mem_map.mp hmem with ⟨r, hr, hrr⟩
        have := List.find?_eq_none.mp hfind0 r hr
        simp [hrr] at this
      have hst : stepProducer emb pre root st p =
          ⟨dinsert (resolvePath root p) (pre ++ p.id) st.pathToCanonical,
           dinsert (pre ++ p.id) (pre ++ p.id) st.idToCanonical,
           dinsert (pre ++ p.id)
             ⟨pre ++ p.id, clipNameOf p (resolvePath root p),
              mkResource emb (resolvePath root p), p.out⟩ st.clips⟩ := by
        unfold stepProducer
        rw [if_neg hb]
        simp only [hpc]
      rw [producersInv, hnb, hst]
      refine ⟨?_, ?_, ?_, ?_⟩
      · -- path map
        intro path'
        simp only [dlookup_dinsert, List.find?_append, find?_single]
        by_cases hpp : resolvePath root p = path'
        · rw [if_pos hpp, ← hpp, hfind0]
          simp
        · rw [if_neg hpp, if_neg hpp, h1 path']
          rcases hf : ((nonBlack l).find? fun r => decide (resolvePath root r = path'))
            with _ | r <;> simp
      · -- id map
        intro q hq
        rcases List.mem_append.mp hq with hql | hqp
        · have hne : ¬ pre ++ p.id = pre ++ q.id :=
            fun heq => hqid q hql heq.symm
          simp only [dlookup_dinsert, if_neg hne, List.find?_append, find?_single]
          rw [h2 q hql]
          have : ∃ r, ((nonBlack l).find?
              fun x => decide (resolvePath root x = resolvePath root q)) = some r := by
            have hs : ((nonBlack l).find?
                fun x => decide (resolvePath root x = resolvePath root q)).isSome := by
              rw [List.find?_isSome]
              exact ⟨q, hql, by simp⟩
            exact Option.isSome_iff_exists.mp hs
          rcases this with ⟨r, hr⟩
          rw [hr]
          simp
        · have hqp' : q = p := by simpa using hqp
          subst hqp'
          simp only [dlookup_dinsert, if_pos rfl, List.find?_append, hfind0, find?_single]
          simp
      · -- clips keys are canonical ids
        intro k hk
        simp only [dlookup_dinsert] at hk
        by_cases hkk : pre ++ p.id = k
        · exact ⟨p, by simp [hnb], hkk.symm⟩
        · rw [if_neg hkk] at hk
          rcases h3 k hk with ⟨q, hq, hqk⟩
          exact ⟨q, by simp [hnb, hq], hqk⟩
      · -- one clip per distinct path
        have hknew : dlookup (pre ++ p.id) st.clips = none := by
          rcases hh : dlookup (pre ++ p.id) st.clips with _ | c
          · rfl
          · have : (dlookup (pre ++ p.id) st.clips).isSome := by
              rw [hh]; rfl
            rcases h3 _ this with ⟨q, hq, hqk⟩
            exact absurd hqk.symm (hqid q hq)
        rw [dinsert_length_of_none _ _ _ hknew, h4, List.map_append, List.map_singleton,
          List.toFinset_append, List.toFinset_cons, List.toFinset_nil]
        have hset : (List.map (resolvePath root) (nonBlack l)).toFinset ∪
            insert (resolvePath root p) (∅ : Finset String) =
            insert (resolvePath root p)
              ((List.map (resolvePath root) (nonBlack l)).toFinset) := by
          ext x
          simp [or_comm]
        rw [hset, Finset.card_insert_of_not_mem (by simpa using hnotpath)]
    · -- alias branch: the path was seen before
      rw [hpc] at hfind
      rcases Option.map_eq_some'.mp hfind.symm with ⟨q0, hq0, hq0c⟩
      have hq0mem : q0 ∈ nonBlack l := List.mem_of_find?_eq_some hq0
      have hq0path : resolvePath root q0 = resolvePath root p := by
        have := List.find?_some hq0
        simpa using this
      have hst : stepProducer emb pre root st p =
          ⟨st.pathToCanonical,
           dinsert (pre ++ p.id) canonical st.idToCanonical, st.clips⟩ := by
        unfold stepProducer
        rw [if_neg hb]
        simp only [hpc]
      rw [producersInv, hnb, hst]
      refine ⟨?_, ?_, ?_, ?_⟩
      · -- path map unchanged
        intro path'
        simp only [List.find?_append, find?_single]
        rw [h1 path']
        rcases hf : ((nonBlack l).find? fun r => decide (resolvePath root r = path'))
          with _ | r
        · by_cases hpp : resolvePath root p = path'
          · rw [← hpp] at hf
            rw [hq0] at hf
            exact absurd hf (by simp)
          · simp [hpp]
        · simp
      · -- id map
        intro q hq
        rcases List.mem_append.mp hq with hql | hqp
        · have hne : ¬ pre ++ p.id = pre ++ q.id :=
            fun heq => hqid q hql heq.symm
          simp only [dlookup_dinsert, if_neg hne, List.find?_append, find?_single]
          rw [h2 q hql]
          have hs : ((nonBlack l).find?
              fun x => decide (resolvePath root x = resolvePath root q)).isSome := by
            rw [List.find?_isSome]
            exact ⟨q, hql, by simp⟩
          rcases Option.isSome_iff_exists.mp hs with ⟨r, hr⟩
          rw [hr]
          simp
        · have hqp' : q = p := by simpa using hqp
          subst hqp'
          simp only [dlookup_dinsert, if_pos rfl, List.find?_append, hq0, find?_single]
          simp [hq0c]
      · -- clips keys unchanged
        intro k hk
        rcases h3 k hk with ⟨q, hq, hqk⟩
        exact ⟨q, by simp [hnb, hq], hqk⟩
      · -- clip count unchanged: the path is already counted
        rw [h4, List.map_append, List.map_singleton, List.toFinset_append,
          List.toFinset_cons, List.toFinset_nil]
        have hset : (List.map (resolvePath root) (nonBlack l)).toFinset ∪
            insert (resolvePath root p) (∅ : Finset String) =
            insert (resolvePath root p)
              ((List.map (resolvePath root) (nonBlack l)).toFinset) := by
          ext x
          simp [or_comm]
        rw [hset, Finset.insert_eq_self.mpr]
        rw [List.mem_toFinset]
        exact hq0path ▸ List.mem_map_of_mem (resolvePath root) hq0mem

lemma producersInv_empty (pre root : String) : producersInv pre root [] PState.empty := by
  unfold producersInv
  refine ⟨fun path => rfl, ?_, ?_, ?_⟩
  · intro p hp
    simp [nonBlack] at hp
  · intro k hk
    simp [PState.empty, dlookup] at hk
  · simp [PState.empty, nonBlack]

lemma producersInv_foldl (emb : Bool) (pre root : String) :
    ∀ (ps l : List Producer) (st : PState),
      ((nonBlack (l ++ ps)).map Producer.id).Nodup →
      producersInv pre root l st →
      producersInv pre root (l ++ ps) (ps.foldl (stepProducer emb pre root) st) := by
  intro ps
  induction ps with
  | nil =>
    intro l st hids hinv
    simpa using hinv
  | cons p ps ih =>
    intro l st hids hinv
    have hassoc : l ++ p :: ps = (l ++ [p]) ++ ps := by simp
    have hids1 : ((nonBlack ((l ++ [p]) ++ ps)).map Producer.id).Nodup := by
      rw [← hassoc]
      exact hids
    have hids2 : ((nonBlack (l ++ [p])).map Producer.id).Nodup := by
      have hsub : (l ++ [p]).Sublist ((l ++ [p]) ++ ps) := List.sublist_append_left _ _
      exact List.Nodup.sublist (List.Sublist.map Producer.id
        (List.Sublist.filter _ hsub)) hids1
    rw [List.foldl_cons, hassoc]
    exact ih (l ++ [p]) (stepProducer emb pre root st p) hids1
      (producersInv_step emb pre root l st p hids2 hinv)

/-- C2: after `_parseProducers`, every non-black producer's prefixed id is
mapped to the canonical clip identity of the FIRST producer with the same
resolved absolute resource path (so a second or later producer with an equal
path is aliased to the first's identity), and the clips mapping holds exactly
one `Clip` per distinct resolved path — no second Clip is created, regardless
of order of appearance. -/
theorem producer_path_dedup (emb : Bool) (pre root : String) (ps : List Producer)
    (hids : ((nonBlack ps).map Producer.id).Nodup) :
    (∀ p ∈ nonBlack ps,
      dlookup (pre ++ p.id) (parseProducers emb pre root ps).idToCanonical =
        ((nonBlack ps).find? fun r => decide (resolvePath root r = resolvePath root p)).map
          (fun r => pre ++ r.id)) ∧
    (parseProducers emb pre root ps).clips.length =
      ((nonBlack ps).map (resolvePath root)).toFinset.card := by
  have h := producersInv_foldl emb pre root ps [] PState.empty (by simpa using hids)
    (producersInv_empty pre root)
  rw [List.nil_append] at h
  unfold parseProducers
  exact ⟨h.2.1, h.2.2.2⟩

/-- C2 witness: two producers (`p2` carrying a stripped `2:` speed prefix)
resolving to the same absolute path. -/
theorem producer_path_dedup_witness :
    ((nonBlack [⟨"p1", "/media/a.mov", none, none, 5, none⟩,
        ⟨"p2", "2:/media/a.mov", none, none, 7, none⟩]).map Producer.id).Nodup ∧
    ((∀ p ∈ nonBlack [⟨"p1", "/media/a.mov", none, none, 5, none⟩,
        ⟨"p2", "2:/media/a.mov", none, none, 7, none⟩],
      dlookup ("" ++ p.id)
          (parseProducers false "" "/proj"
            [⟨"p1", "/media/a.mov", none, none, 5, none⟩,
             ⟨"p2", "2:/media/a.mov", none, none, 7, none⟩]).idToCanonical =
        ((nonBlack [⟨"p1", "/media/a.mov", none, none, 5, none⟩,
            ⟨"p2", "2:/media/a.mov", none, none, 7, none⟩]).find?
          fun r => decide (resolvePath "/proj" r = resolvePath "/proj" p)).map
            (fun r => "" ++ r.id)) ∧
    (parseProducers false "" "/proj"
        [⟨"p1", "/media/a.mov", none, none, 5, none⟩,
         ⟨"p2", "2:/media/a.mov", none, none, 7, none⟩]).clips.length =
      ((nonBlack [⟨"p1", "/media/a.mov", none, none, 5, none⟩,
          ⟨"p2", "2:/media/a.mov", none, none, 7, none⟩]).map
        (resolvePath "/proj")).toFinset.card) :=
  ⟨by decide,
    producer_path_dedup false "" "/proj"
      [⟨"p1", "/media/a.mov", none, none, 5, none⟩,
       ⟨"p2", "2:/media/a.mov", none, none, 7, none⟩] (by decide)⟩

/-- C8 counterexample: with unrestricted raw producer ids, two distinct
Projects (counters 0 and 1, compound-clip option off) mint the same prefixed
clip identity: `"" ++ "EMB_01_a" = "EMB_01_" ++ "a"`.  Global uniqueness is
not unconditional. -/
theorem clip_identity_collision_cex :
    idPrefixAt false 0 ++ "EMB_01_a" = idPrefixAt false 1 ++ "a" ∧ (0 : ℕ) ≠ 1 := by
  decide

lemma digitChar_toNat_sub : ∀ d, d < 10 → (Nat.digitChar d).toNat - 48 = d := by decide

lemma digitChar_digit : ∀ d, d < 10 → (Nat.digitChar d).isDigit = true := by decide

lemma toDigitsCore_foldl : ∀ (fuel n : ℕ) (ds : List Char), n < fuel →
    (Nat.toDigitsCore 10 fuel n ds).foldl (fun a c => 10 * a + (c.toNat - 48)) 0 =
      ds.foldl (fun a c => 10 * a + (c.toNat - 48)) n := by
  intro fuel
  induction fuel with
  | zero =>
    intro n ds h
    exact absurd h (Nat.not_lt_zero n)
  | succ fuel ih =>
    intro n ds h
    by_cases h10 : n / 10 = 0
    · have hn10 : n < 10 := by omega
      have hstep : Nat.toDigitsCore 10 (fuel + 1) n ds = Nat.digitChar (n % 10) :: ds := by
        simp only [Nat.toDigitsCore]
        rw [if_pos h10]
      rw [hstep, List.foldl_cons, Nat.mod_eq_of_lt hn10, digitChar_toNat_sub n hn10]
      norm_num
    · have hstep : Nat.toDigitsCore 10 (fuel + 1) n ds =
          Nat.toDigitsCore 10 fuel (n / 10) (Nat.digitChar (n % 10) :: ds) := by
        simp only [Nat.toDigitsCore]
        rw [if_neg h10]
      have hlt : n / 10 < fuel := by omega
      rw [hstep, ih (n / 10) (Nat.digitChar (n % 10) :: ds) hlt, List.foldl_cons,
        digitChar_toNat_sub _ (Nat.mod_lt _ (by norm_num)), Nat.div_add_mod]

lemma digitsVal_repr (n : ℕ) : digitsVal (Nat.repr n).data = n := by
  have hdata : (Nat.repr n).data = Nat.toDigitsCore 10 (n + 1) n [] := rfl
  unfold digitsVal
  rw [hdata, toDigitsCore_foldl (n + 1) n [] (Nat.lt_succ_self n)]
  rfl

lemma digitsVal_pad2 (n : ℕ) : digitsVal (pad2 n).data = n := by
  unfold pad2
  by_cases h : n < 10
  · rw [if_pos h]
    have hcons : ("0" ++ Nat.repr n).data = '0' :: (Nat.repr n).data := by
      rw [String.data_append]
      rfl
    rw [hcons]
    unfold digitsVal
    rw [List.foldl_cons]
    have h0 : 10 * 0 + ('0'.toNat - 48) = 0 := by decide
    rw [h0]
    exact digitsVal_repr n
  · rw [if_neg h]
    exact digitsVal_repr n

lemma pad2_injective {m n : ℕ} (h : pad2 m = pad2 n) : m = n := by
  have hv := congrArg (fun s => digitsVal s.data) h
  simpa [digitsVal_pad2] using hv

lemma toDigitsCore_digits : ∀ (fuel n : ℕ) (ds : List Char),
    (∀ c ∈ ds, c.isDigit = true) →
    ∀ c ∈ Nat.toDigitsCore 10 fuel n ds, c.isDigit = true := by
  intro fuel
  induction fuel with
  | zero =>
    intro n ds hds c hc
    exact hds c hc
  | succ fuel ih =>
    intro n ds hds c hc
    have hmod : n % 10 < 10 := Nat.mod_lt _ (by norm_num)
    by_cases h10 : n / 10 = 0
    · rw [show Nat.toDigitsCore 10 (fuel + 1) n ds = Nat.digitChar (n % 10) :: ds by
        simp only [Nat.toDigitsCore]; rw [if_pos h10]] at hc
      rcases List.mem_cons.mp hc with rfl | hmem
      · exact digitChar_digit _ hmod
      · exact hds c hmem
    · rw [show Nat.toDigitsCore 10 (fuel + 1) n ds =
          Nat.toDigitsCore 10 fuel (n / 10) (Nat.digitChar (n % 10) :: ds) by
        simp only [Nat.toDigitsCore]; rw [if_neg h10]] at hc
      refine ih (n / 10) _ ?_ c hc
      intro x hx
      rcases List.mem_cons.mp hx with rfl | hxm
      · exact digitChar_digit _ hmod
      · exact hds x hxm

lemma repr_digits (n : ℕ) : ∀ c ∈ (Nat.repr n).data, c.isDigit = true := by
  have hdata : (Nat.repr n).data = Nat.toDigitsCore 10 (n + 1) n [] := rfl
  rw [hdata]
  exact toDigitsCore_digits (n + 1) n []
    (fun c hc => absurd hc (List.not_mem_nil c))

lemma pad2_no_underscore (n : ℕ) : '_' ∉ (pad2 n).data := by
  intro hmem
  have hdig : ('_').isDigit = true := by
    unfold pad2 at hmem
    by_cases h : n < 10
    · rw [if_pos h, String.data_append] at hmem
      rcases List.mem_append.mp hmem with h0 | hr
      · simp at h0
      · exact repr_digits n _ hr
    · rw [if_neg h] at hmem
      exact repr_digits n _ hmem
  simp at hdig

lemma append_sep_inj : ∀ (u v x y : List Char), '_' ∉ u → '_' ∉ v →
    u ++ '_' :: x = v ++ '_' :: y → u = v ∧ x = y := by
  intro u
  induction u with
  | nil =>
    intro v x y _ hv h
    cases v with
    | nil => simpa using h
    | cons d v' =>
      rw [List.nil_append, List.cons_append] at h
      injection h with h1 h2
      exact absurd (h1 ▸ List.mem_cons_self d v') hv
  | cons c u' ih =>
    intro v x y hu hv h
    cases v with
    | nil =>
      rw [List.nil_append, List.cons_append] at h
      injection h with h1 h2
      exact absurd (h1 ▸ List.mem_cons_self c u') hu
    | cons d v' =>
      rw [List.cons_append, List.cons_append] at h
      injection h with h1 h2
      have hu' : '_' ∉ u' := fun hm => hu (List.mem_cons_of_mem c hm)
      have hv' : '_' ∉ v' := fun hm => hv (List.mem_cons_of_mem d hm)
      obtain ⟨huv, hxy⟩ := ih v' x y hu' hv' h2
      exact ⟨by rw [h1, huv], hxy⟩

lemma str_empty_append (s : String) : "" ++ s = s := by
  apply str_ext
  simp [String.data_append]

lemma str_append_assoc (x y z : String) : (x ++ y) ++ z = x ++ (y ++ z) := by
  apply str_ext
  simp [String.data_append]

lemma prefix_zero_collision_impossible (emb : Bool) (n : ℕ) (hn0 : n ≠ 0) (a b : String)
    (ha : goodRawId a) : idPrefixAt emb 0 ++ a ≠ idPrefixAt emb n ++ b := by
  intro heq
  rw [idPrefixAt, if_pos rfl, idPrefixAt, if_neg hn0] at heq
  cases emb with
  | false =>
    rw [if_neg (by decide : ¬ (false = true)), str_empty_append, str_append_assoc,
      str_append_assoc] at heq
    apply ha
    rw [heq]
    exact ⟨(pad2 n ++ ("_" ++ b)).data, (String.data_append _ _).symm⟩
  | true =>
    rw [if_pos rfl] at heq
    have hd := congrArg String.data heq
    simp at hd

lemma prefix_pos_collision_impossible (emb : Bool) (m n : ℕ) (hm0 : m ≠ 0) (hn0 : n ≠ 0)
    (hmn : m ≠ n) (a b : String) :
    idPrefixAt emb m ++ a ≠ idPrefixAt emb n ++ b := by
  intro heq
  rw [idPrefixAt, if_neg hm0, idPrefixAt, if_neg hn0] at heq
  have hd := congrArg String.data heq
  simp only [String.data_append, List.append_assoc, List.singleton_append] at hd
  have hd2 := List.append_cancel_left hd
  obtain ⟨hpad, _⟩ := append_sep_inj (pad2 m).data (pad2 n).data a.data b.data
    (pad2_no_underscore m) (pad2_no_underscore n) hd2
  exact hmn (pad2_injective (str_ext hpad))

/-- C8 amended: each Project's `id_prefix` comes from the process-wide counter
— `""`/`"ROOT_"` (by the compound-clip option) when the counter is 0, and
`"EMB_<NN>_"` for counter N > 0 — and prefixed clip identities are globally
unique across distinct Projects (any number of them) provided no raw producer
id itself starts with `"EMB_"`; with unrestricted raw ids, collisions are
possible. -/
theorem id_prefix_assignment_and_uniqueness :
    (∀ emb : Bool, idPrefixAt emb 0 = (if emb then "ROOT_" else "")) ∧
    (∀ (emb : Bool) (n : ℕ), n ≠ 0 → idPrefixAt emb n = "EMB_" ++ pad2 n ++ "_") ∧
    (∀ (emb : Bool) (m n : ℕ) (a b : String), m ≠ n →
      goodRawId a → goodRawId b →
      idPrefixAt emb m ++ a ≠ idPrefixAt emb n ++ b) := by
  refine ⟨fun emb => rfl, fun emb n hn => by rw [idPrefixAt, if_neg hn], ?_⟩
  intro emb m n a b hmn ha hb
  by_cases hm0 : m = 0
  · subst hm0
    have hn0 : n ≠ 0 := fun h => hmn h.symm
    exact prefix_zero_collision_impossible emb n hn0 a b ha
  · by_cases hn0 : n = 0
    · subst hn0
      intro heq
      exact prefix_zero_collision_impossible emb m hm0 b a hb heq.symm
    · exact prefix_pos_collision_impossible emb m n hm0 hn0 hmn a b

/-- C8 witness: the uniqueness part applied to the first two Projects of a run
with ordinary producer ids. -/
theorem id_prefix_assignment_witness :
    ((0 : ℕ) ≠ 1 ∧ goodRawId "x" ∧ goodRawId "y") ∧
    idPrefixAt false 0 ++ "x" ≠ idPrefixAt false 1 ++ "y" :=
  ⟨⟨by decide, by decide, by decide⟩,
    id_prefix_assignment_and_uniqueness.2.2 false 0 1 "x" "y" (by decide)
      (by decide) (by decide)⟩

end Kdl2Fcp
